import Mathlib

/-!
Verification of the version-bump / changelog classifier and the semantic
version increment of `g-1-repo/util`.

The source functions (`analyzeChangesForVersionBump`, `analyzeFileChanges`,
`analyzeCommitMessages`, `incrementVersion`, from the release script and the
identical `GitOperations` methods) are embedded shallowly.  The git accessors
(`getChangedFiles`, `getRecentCommits`) are effectful; the classifier body is
therefore embedded as a pure function of the snapshot it reads: the list of
changed-file paths and the list of recent commit subjects.

JavaScript regular expressions are embedded as executable predicates on
`List Char`.  All the patterns in the source are built from literal text,
start anchors `^`, end anchors `$`, the class `[\s\-_]*` and alternation, so
each one is translated to a combination of "starts with", "ends with" and
"contains" tests; the `i` flag is translated by mapping `Char.toLower` over
the subject (the regexes have no `u` flag, so JavaScript case-blindness is
ASCII-only, exactly `Char.toLower`'s domain).
-/

/-- `startsWithL pat l` : the char list `l` starts with the char list `pat`. -/
def startsWithL : List Char → List Char → Bool
  | [], _ => true
  | _ :: _, [] => false
  | p :: ps, c :: cs => p == c && startsWithL ps cs

/-- `anywhereB p l` : the predicate `p` holds of some suffix of `l`
(this is how an unanchored regex is tested at every position). -/
def anywhereB (p : List Char → Bool) : List Char → Bool
  | [] => p []
  | c :: cs => p (c :: cs) || anywhereB p cs

/-- `containsL pat l` : `pat` occurs as a contiguous run inside `l`. -/
def containsL (pat : List Char) (l : List Char) : Bool :=
  anywhereB (startsWithL pat) l

/-- `endsWithL pat l` : `l` ends with `pat`. -/
def endsWithL (pat : List Char) (l : List Char) : Bool :=
  startsWithL pat.reverse l.reverse

/-- The subject lowered to a char list; embeds testing an `i`-flagged
(ASCII, non-`u`) JavaScript regex against the subject. -/
def lowerL (s : String) : List Char :=
  s.data.map Char.toLower

/-- Case-insensitive anchored prefix test (`/^pat/i`). -/
def startsWithCI (s pat : String) : Bool :=
  startsWithL (lowerL pat) (lowerL s)

/-- Case-insensitive substring test (`/pat/i`). -/
def containsCI (s pat : String) : Bool :=
  containsL (lowerL pat) (lowerL s)

/-- A JavaScript `\s` character: ASCII whitespace plus the Unicode space
set (NBSP, Ogham space, the U+2000 range, line/paragraph separators, narrow
NBSP, medium mathematical space, ideographic space, BOM). -/
def isJsSpace (c : Char) : Bool :=
  c == ' ' || c == '\t' || c == '\n' || c == '\r' ||
  c.toNat == 0x0b || c.toNat == 0x0c || c.toNat == 0xa0 ||
  c.toNat == 0x1680 ||
  (0x2000 ≤ c.toNat && c.toNat ≤ 0x200a) ||
  c.toNat == 0x2028 || c.toNat == 0x2029 || c.toNat == 0x202f ||
  c.toNat == 0x205f || c.toNat == 0x3000 || c.toNat == 0xfeff

/-- The character class `[\s\-_]` of the pattern `BREAKING[\s\-_]*CHANGE`:
a JavaScript `\s` character, a dash, or an underscore. -/
def isJsSepChar (c : Char) : Bool :=
  isJsSpace c || c == '-' || c == '_'

/-- Drop the (maximal) leading run of `[\s\-_]` characters. -/
def dropSeps : List Char → List Char
  | [] => []
  | c :: cs => if isJsSepChar c then dropSeps cs else c :: cs

/-- `BREAKING[\s\-_]*CHANGE` (already lowered by the `i` flag) tested at the
head of `l`: `breaking`, then separator characters, then `change`.  Because
`change` starts with a non-separator character, the greedy `[\s\-_]*` is
equivalent to dropping the whole separator run. -/
def bcAt (l : List Char) : Bool :=
  startsWithL "breaking".data l &&
  startsWithL "change".data (dropSeps (l.drop 8))

/-- `/BREAKING[\s\-_]*CHANGE/i` tested (unanchored) against a lowered subject. -/
def bcAnywhere (l : List Char) : Bool :=
  anywhereB bcAt l

/-- A commit subject matches some entry of the source's `breakingIndicators`
array `[/BREAKING[\s\-_]*CHANGE/i, /^feat!:/i, /^fix!:/i, /!:/, /breaking/i]`.
Note that the fourth pattern has no `^` anchor and no `i` flag: it is an
unanchored case-sensitive test on the raw subject. -/
def breakingMatch (s : String) : Bool :=
  bcAnywhere (lowerL s) ||
  startsWithL "feat!:".data (lowerL s) ||
  startsWithL "fix!:".data (lowerL s) ||
  containsL "!:".data s.data ||
  containsL "breaking".data (lowerL s)

/-- A commit subject matches some entry of the source's `featureIndicators`
array `[/^feat[\(:]|^feature[\(:]|^add[\(:]|new feature/i, /^enhancement/i]`. -/
def featureMatch (s : String) : Bool :=
  startsWithL "feat(".data (lowerL s) ||
  startsWithL "feat:".data (lowerL s) ||
  startsWithL "feature(".data (lowerL s) ||
  startsWithL "feature:".data (lowerL s) ||
  startsWithL "add(".data (lowerL s) ||
  startsWithL "add:".data (lowerL s) ||
  containsL "new feature".data (lowerL s) ||
  startsWithL "enhancement".data (lowerL s)

example : breakingMatch "feat!: remove legacy API" = true := by decide
example : breakingMatch "Fix parser: handle a!:b tokens" = true := by decide
example : breakingMatch "fix: null pointer" = false := by decide
example : breakingMatch "this is a BREAKING-CHANGE" = true := by decide
example : featureMatch "feat: x" = true := by decide
example : featureMatch "chore: bump deps" = false := by decide

/-- Version bump types (`type VersionBumpType = 'major' | 'minor' | 'patch'`). -/
inductive VersionBumpType : Type
  | major
  | minor
  | patch
deriving DecidableEq

/-- Boolean membership in a list of strings; embeds the JavaScript
`Set.has` test used by `analyzeCommitMessages` and the value-dedup
`[...new Set(changesList)]`. -/
def inList (x : String) : List String → Bool
  | [] => false
  | y :: ys => x == y || inList x ys

/-- One pass of `[...new Set(l)]`: keep an element iff it has not been
seen yet, first occurrence wins, insertion order preserved. -/
def dedupAux (seen : List String) : List String → List String
  | [] => []
  | x :: xs => if inList x seen then dedupAux seen xs else x :: dedupAux (x :: seen) xs

/-- `[...new Set(l)]` — value-dedup keeping first occurrences in order. -/
def dedupFirst (l : List String) : List String :=
  dedupAux [] l

/-- The `patterns` table of `analyzeFileChanges`: each entry is the embedded
regex test paired with its description string, in source order. -/
def filePatterns : List ((String → Bool) × String) :=
  [(fun f => anywhereB
      (fun l => startsWithL "src/".data l &&
        (endsWithL ".ts".data (l.drop 4) || endsWithL ".js".data (l.drop 4) ||
         endsWithL ".tsx".data (l.drop 4) || endsWithL ".jsx".data (l.drop 4)))
      f.data,
    "Update source code and functionality"),
   (fun f => anywhereB
      (fun l => startsWithL "src/".data l &&
        (endsWithL ".css".data (l.drop 4) || endsWithL ".scss".data (l.drop 4)))
      f.data,
    "Update styling and design"),
   (fun f => endsWithL "package.json".data f.data,
    "Update dependencies and package configuration"),
   (fun f => endsWithL "tsconfig.json".data f.data,
    "Update TypeScript configuration"),
   (fun f => endsWithL "README.md".data f.data,
    "Update documentation"),
   (fun f => containsCI f "test" || containsCI f "spec",
    "Improve testing coverage"),
   (fun f => containsCI f "config",
    "Update configuration files")]

/-- `analyzeFileChanges(files)`: walk the pattern table in order and emit the
description of every entry matched by at least one file. -/
def analyzeFileChanges (files : List String) : List String :=
  filePatterns.filterMap (fun p => if files.any p.1 then some p.2 else none)

/-- The `patterns` table of `analyzeCommitMessages`, in source order.  Each
regex `/^kw[\(:]|w1|w2/i` is an anchored `kw(` / `kw:` prefix test or an
unanchored keyword test, all case-insensitive. -/
def commitPatterns : List ((String → Bool) × String) :=
  [(fun c => startsWithCI c "fix(" || startsWithCI c "fix:" ||
     containsCI c "bug" || containsCI c "error" || containsCI c "issue",
    "Fix bugs and resolve issues"),
   (fun c => startsWithCI c "feat(" || startsWithCI c "feat:" ||
     containsCI c "feature" || containsCI c "add",
    "Add new features and functionality"),
   (fun c => startsWithCI c "style(" || startsWithCI c "style:" ||
     containsCI c "css" || containsCI c "design" || containsCI c "ui" || containsCI c "ux",
    "Improve visual design and user experience"),
   (fun c => startsWithCI c "perf(" || startsWithCI c "perf:" ||
     containsCI c "performance" || containsCI c "optimization" || containsCI c "speed",
    "Enhance performance and optimization"),
   (fun c => startsWithCI c "refactor(" || startsWithCI c "refactor:" ||
     containsCI c "cleanup" || containsCI c "reorganize",
    "Refactor code for better maintainability"),
   (fun c => startsWithCI c "docs(" || startsWithCI c "docs:" ||
     containsCI c "documentation" || containsCI c "readme",
    "Update documentation"),
   (fun c => startsWithCI c "test(" || startsWithCI c "test:" ||
     containsCI c "testing" || containsCI c "spec",
    "Improve testing coverage"),
   (fun c => startsWithCI c "chore(" || startsWithCI c "chore:" ||
     containsCI c "maintenance" || containsCI c "update",
    "General maintenance and updates"),
   (fun c => containsCI c "security" || containsCI c "vulnerability" || containsCI c "cve",
    "Address security improvements")]

/-- The inner `for (const pattern of patterns)` loop of
`analyzeCommitMessages`: the first table entry whose test matches the commit
AND whose description is not in the seen set.  (The loop `break`s only when
it pushes; a matching entry with an already-seen description is skipped and
the scan continues.) -/
def firstUnseenMatch (seen : List String) (c : String) :
    List ((String → Bool) × String) → Option String
  | [] => none
  | p :: ps =>
    if p.1 c && !(inList p.2 seen) then some p.2 else firstUnseenMatch seen c ps

/-- The outer `for (const commit of commits)` loop of `analyzeCommitMessages`,
threading the `matchedPatterns` seen set. -/
def analyzeCommitMessagesAux (seen : List String) : List String → List String
  | [] => []
  | c :: cs =>
    match firstUnseenMatch seen c commitPatterns with
    | none => analyzeCommitMessagesAux seen cs
    | some d => d :: analyzeCommitMessagesAux (d :: seen) cs

/-- `analyzeCommitMessages(commits)`. -/
def analyzeCommitMessages (commits : List String) : List String :=
  analyzeCommitMessagesAux [] commits

/-- Analysis result for version bump determination (`VersionAnalysis`). -/
structure VersionAnalysis : Type where
  versionBump : VersionBumpType
  changeType : String
  changesList : List String
  changedFiles : List String
  commits : List String
deriving DecidableEq

/-- The `changesList` contents of `analyzeChangesForVersionBump` before the
final `[...new Set(...)]` dedup: the fixed breaking-change sentence when a
breaking indicator fired, then the file-table descriptions, then the
commit-table descriptions, with the generic fallback when nothing was
collected. -/
def rawChangesList (changedFiles commits : List String) : List String :=
  let base :=
    (if commits.any breakingMatch then
      ["**BREAKING CHANGES**: Major updates that may require code changes"]
     else []) ++
    analyzeFileChanges changedFiles ++ analyzeCommitMessages commits
  if base.isEmpty then ["General improvements and bug fixes"] else base

/-- `analyzeChangesForVersionBump()`, as a function of the snapshot it reads
from git (the changed-file paths and the recent commit subjects).
`commits.some(c => breakingIndicators.some(p => p.test(c)))` is
`commits.any breakingMatch`, and likewise for the feature indicators; the
imperative mutation of `versionBump` / `changeType` / `changesList` is the
if/else chain below. -/
def analyzeChangesForVersionBump (changedFiles commits : List String) : VersionAnalysis :=
  { versionBump :=
      if commits.any breakingMatch then VersionBumpType.major
      else if commits.any featureMatch then VersionBumpType.minor
      else VersionBumpType.patch
    changeType :=
      if commits.any breakingMatch then "Major Changes"
      else if commits.any featureMatch then "Minor Changes"
      else "Patch Changes"
    changesList := dedupFirst (rawChangesList changedFiles commits)
    changedFiles := changedFiles
    commits := commits }

example :
    analyzeChangesForVersionBump ["src/foo.ts"] ["fix: null pointer", "chore: bump deps"] =
      { versionBump := VersionBumpType.patch
        changeType := "Patch Changes"
        changesList := ["Update source code and functionality",
                        "Fix bugs and resolve issues",
                        "General maintenance and updates"]
        changedFiles := ["src/foo.ts"]
        commits := ["fix: null pointer", "chore: bump deps"] } := by decide

example :
    analyzeCommitMessages ["fix: crash", "fix: update parser"] =
      ["Fix bugs and resolve issues", "General maintenance and updates"] := by decide

/-- `version.split('.')` for the single-character separator `'.'`:
splitting `[]` gives `[[]]` (JavaScript `"".split('.') == [""]`). -/
def splitDot : List Char → List (List Char)
  | [] => [[]]
  | c :: cs =>
    if c == '.' then [] :: splitDot cs
    else
      match splitDot cs with
      | [] => [[c]]
      | p :: ps => (c :: p) :: ps

/-- Drop the leading run of JavaScript whitespace characters. -/
def dropJsSpaces : List Char → List Char
  | [] => []
  | c :: cs => if isJsSpace c then dropJsSpaces cs else c :: cs

/-- Trim JavaScript whitespace from both ends. -/
def trimJs (l : List Char) : List Char :=
  ((dropJsSpaces ((dropJsSpaces l).reverse)).reverse)

/-- The numeric value of an ASCII digit. -/
def digitVal (c : Char) : Option Nat :=
  if 48 ≤ c.toNat && c.toNat ≤ 57 then some (c.toNat - 48) else none

/-- Accumulate a decimal value over a digit run; any non-digit gives `none`. -/
def parseDigitsAux (acc : Nat) : List Char → Option Nat
  | [] => some acc
  | c :: cs =>
    match digitVal c with
    | some d => parseDigitsAux (acc * 10 + d) cs
    | none => none

/-- A non-empty all-digit run as a decimal number. -/
def parseDigits : List Char → Option Nat
  | [] => none
  | c :: cs => parseDigitsAux 0 (c :: cs)

/-- Number of halvings needed to bring `m` below 2^53, computed with a fuel
bound to keep the recursion structural; 1100 steps cover every value below
2^1153, far past the float64 overflow threshold. -/
def ulpExpAux : Nat → Nat → Nat
  | 0, _ => 0
  | fuel + 1, m => if m < 9007199254740992 then 0 else ulpExpAux fuel (m / 2) + 1

/-- IEEE-754 binary64 rounding (round to nearest, ties to even) of a
natural number.  Naturals up to 2^53 = 9007199254740992 are represented
exactly; a larger value sits in a binade whose unit in the last place is
`2 ^ k` (with `k` halvings bringing it below 2^53) and is rounded to the
nearest multiple of that ulp, a tie going to the multiple with even
quotient.  (Float64 overflow to Infinity, beyond about 1.8e308, is not
represented; no theorem in this file evaluates the model there.) -/
def flNat (n : Nat) : Nat :=
  if n < 9007199254740992 then n
  else
    let k := ulpExpAux 1100 n
    let u := 2 ^ k
    let q := n / u
    let r := n % u
    if 2 * r < u then q * u
    else if 2 * r > u then (q + 1) * u
    else if q % 2 == 0 then q * u else (q + 1) * u

/-- Float64 rounding extended to integers by sign symmetry (IEEE-754
round-to-nearest is symmetric about zero). -/
def flInt (v : Int) : Int :=
  if v < 0 then -Int.ofNat (flNat v.natAbs) else Int.ofNat (flNat v.natAbs)

example : flNat 9007199254740993 = 9007199254740992 := by decide
example : flNat 9007199254740995 = 9007199254740996 := by decide

/-- JavaScript `Number(s)` on the decimal-integer fragment: whitespace is
trimmed, the empty (or all-whitespace) string is `0`, an optional single
sign precedes a digit run, and anything else is `NaN` (`none`).  The digit
run denotes the float64 nearest its exact value, so `Number` of
`9007199254740993` (2^53 + 1) is `9007199254740992`.  The fragments of
`Number` a version component cannot exercise (fraction and exponent syntax
contains `'.'` or would be rejected anyway, hex and `Infinity` are not
version numerals) are mapped to `NaN` like any other non-numeric input. -/
def jsNumberL (l : List Char) : Option Int :=
  match trimJs l with
  | [] => some 0
  | '-' :: rest => (parseDigits rest).map (fun n => -Int.ofNat (flNat n))
  | '+' :: rest => (parseDigits rest).map (fun n => Int.ofNat (flNat n))
  | l' => (parseDigits l').map (fun n => Int.ofNat (flNat n))

/-- Render one component back into the template string: `NaN` prints as
`"NaN"`, an integer double prints its decimal digits.  This is JavaScript's
rendering for magnitudes up to 2^53, where the shortest round-tripping
decimal is the exact digit string; the shortest-round-trip digits of larger
doubles and the exponential format from 1e21 upward are outside the model —
no theorem in this file renders a value above 2^53. -/
def jsNumToString : Option Int → String
  | none => "NaN"
  | some n => toString n

/-- `x + 1` on a component: float64 addition rounds the exact sum, so at
and above 2^53 the increment can be lost (`9007199254740992 + 1` is
`9007199254740992`, the tie rounding to the even mantissa); `NaN + 1` is
`NaN`. -/
def jsAdd1 : Option Int → Option Int
  | none => none
  | some n => some (flInt (n + 1))

/-- `incrementVersion(version, type)`: split on `'.'`, coerce each part with
`Number`, default missing parts (`parts[i] ?? 0`) to `0`, and rebuild the
template string for the requested bump (the `patch` arm is also the
`default` arm of the `switch`, so the match below is total). -/
def incrementVersion (version : String) (type : VersionBumpType) : String :=
  let parts := (splitDot version.data).map jsNumberL
  let major := parts.getD 0 (some 0)
  let minor := parts.getD 1 (some 0)
  let patch := parts.getD 2 (some 0)
  match type with
  | VersionBumpType.major => jsNumToString (jsAdd1 major) ++ ".0.0"
  | VersionBumpType.minor => jsNumToString major ++ "." ++ jsNumToString (jsAdd1 minor) ++ ".0"
  | VersionBumpType.patch =>
    jsNumToString major ++ "." ++ jsNumToString minor ++ "." ++ jsNumToString (jsAdd1 patch)

example : incrementVersion "1.2.3" VersionBumpType.major = "2.0.0" := by decide
example : incrementVersion "1.2.3" VersionBumpType.minor = "1.3.0" := by decide
example : incrementVersion "1.2.3" VersionBumpType.patch = "1.2.4" := by decide
example : incrementVersion "0.0.1" VersionBumpType.patch = "0.0.2" := by decide
example : incrementVersion "1.2" VersionBumpType.patch = "1.2.1" := by decide
example : incrementVersion "" VersionBumpType.patch = "0.0.1" := by decide

/-! ### Generic lemmas about the matching primitives -/

theorem startsWithL_append (p q l : List Char) :
    startsWithL (p ++ q) l = true ↔
      startsWithL p l = true ∧ startsWithL q (l.drop p.length) = true := by
  induction p generalizing l with
  | nil => simp [startsWithL]
  | cons a ps ih =>
    cases l with
    | nil => simp [startsWithL]
    | cons c cs =>
      simp [startsWithL, Bool.and_eq_true, ih, and_assoc]

theorem anywhereB_mono {p q : List Char → Bool} (h : ∀ t, p t = true → q t = true) :
    ∀ l, anywhereB p l = true → anywhereB q l = true := by
  intro l
  induction l with
  | nil => simpa [anywhereB] using h []
  | cons c cs ih =>
    simp only [anywhereB, Bool.or_eq_true]
    rintro (hp | hp)
    · exact Or.inl (h _ hp)
    · exact Or.inr (ih hp)

theorem containsL_append_left (p q l : List Char) (h : containsL (p ++ q) l = true) :
    containsL p l = true :=
  anywhereB_mono (fun t ht => ((startsWithL_append p q t).mp ht).1) l h

/-- A lowered subject containing the literal token `breaking change` contains
the word `breaking`. -/
theorem breaking_of_containsBC (s : String) (h : containsCI s "BREAKING CHANGE" = true) :
    containsL "breaking".data (lowerL s) = true := by
  have e1 : lowerL "BREAKING CHANGE" = "breaking".data ++ " change".data := by decide
  have h' : containsL ("breaking".data ++ " change".data) (lowerL s) = true := by
    rw [← e1]; exact h
  exact containsL_append_left _ _ _ h'

/-- A match of `/BREAKING[\s\-_]*CHANGE/i` is in particular a match of
`/breaking/i`. -/
theorem bcAnywhere_breaking (l : List Char) (h : bcAnywhere l = true) :
    containsL "breaking".data l = true := by
  refine anywhereB_mono (fun t ht => ?_) l h
  simp only [bcAt, Bool.and_eq_true] at ht
  exact ht.1

/-- A subject containing `BREAKING CHANGE` (any case) matches the source's
breaking indicators. -/
theorem breakingMatch_of_containsBC (s : String) (h : containsCI s "BREAKING CHANGE" = true) :
    breakingMatch s = true := by
  simp [breakingMatch, breaking_of_containsBC s h]

/-! ### Lemmas about `inList` and the `[...new Set(...)]` dedup -/

theorem inList_append_singleton (x d : String) (l : List String) :
    inList x (l ++ [d]) = (inList x l || x == d) := by
  induction l with
  | nil => simp [inList]
  | cons y ys ih => simp [inList, ih, Bool.or_assoc]

theorem mem_dedupAux (x : String) (l : List String) :
    ∀ seen, x ∈ dedupAux seen l ↔ (x ∈ l ∧ inList x seen = false) := by
  induction l with
  | nil => intro seen; simp [dedupAux]
  | cons y ys ih =>
    intro seen
    by_cases hy : inList y seen = true
    · rw [dedupAux, if_pos hy, ih seen]
      constructor
      · rintro ⟨hmem, hns⟩; exact ⟨List.mem_cons_of_mem y hmem, hns⟩
      · rintro ⟨hmem, hns⟩
        rcases List.mem_cons.mp hmem with rfl | hmem'
        · rw [hy] at hns; cases hns
        · exact ⟨hmem', hns⟩
    · have hy' : inList y seen = false := by
        cases h : inList y seen
        · rfl
        · exact absurd h hy
      rw [dedupAux, if_neg (by simp [hy'])]
      by_cases hxy : x = y
      · subst hxy
        simp [hy']
      · have hxyb : (x == y) = false := beq_eq_false_iff_ne.mpr hxy
        simp only [List.mem_cons, ih (y :: seen), inList, hxyb, Bool.false_or]
        constructor
        · rintro (rfl | ⟨hmem, hns⟩)
          · exact absurd rfl hxy
          · exact ⟨Or.inr hmem, hns⟩
        · rintro ⟨rfl | hmem, hns⟩
          · exact absurd rfl hxy
          · exact Or.inr ⟨hmem, hns⟩

theorem dedupAux_nodup (l : List String) : ∀ seen, (dedupAux seen l).Nodup := by
  induction l with
  | nil => intro seen; simp [dedupAux]
  | cons y ys ih =>
    intro seen
    by_cases hy : inList y seen = true
    · rw [dedupAux, if_pos hy]; exact ih seen
    · rw [dedupAux, if_neg hy]
      refine List.nodup_cons.mpr ⟨?_, ih (y :: seen)⟩
      intro hmem
      have h := (mem_dedupAux y ys (y :: seen)).mp hmem
      simp [inList] at h

theorem dedupAux_sublist (l : List String) : ∀ seen, (dedupAux seen l).Sublist l := by
  induction l with
  | nil => intro seen; simp [dedupAux]
  | cons y ys ih =>
    intro seen
    by_cases hy : inList y seen = true
    · rw [dedupAux, if_pos hy]; exact (ih seen).cons y
    · rw [dedupAux, if_neg hy]; exact (ih (y :: seen)).cons₂ y

theorem dedupAux_eq_self (l : List String) :
    ∀ seen, l.Nodup → (∀ x ∈ l, inList x seen = false) → dedupAux seen l = l := by
  induction l with
  | nil => intro seen _ _; rfl
  | cons y ys ih =>
    intro seen hnd hseen
    have hy : inList y seen = false := hseen y (List.mem_cons_self y ys)
    have h1 : ∀ x ∈ ys, inList x (y :: seen) = false := by
      intro x hx
      have hxy : (x == y) = false := beq_eq_false_iff_ne.mpr (by
        intro he; subst he; exact (List.nodup_cons.mp hnd).1 hx)
      simp [inList, hxy, hseen x (List.mem_cons_of_mem y hx)]
    rw [dedupAux, if_neg (by simp [hy]),
      ih (y :: seen) (List.nodup_cons.mp hnd).2 h1]

theorem dedupFirst_nodup (l : List String) : (dedupFirst l).Nodup :=
  dedupAux_nodup l []

theorem dedupFirst_sublist (l : List String) : (dedupFirst l).Sublist l :=
  dedupAux_sublist l []

theorem mem_dedupFirst (x : String) (l : List String) : x ∈ dedupFirst l ↔ x ∈ l := by
  simpa [dedupFirst, inList] using mem_dedupAux x l []

theorem dedupFirst_idem (l : List String) : dedupFirst (dedupFirst l) = dedupFirst l :=
  dedupAux_eq_self (dedupFirst l) [] (dedupFirst_nodup l) (fun _ _ => rfl)

/-! ### The commit-message scan: seen-set threading -/

/-- The per-commit contribution in a "spec shaped" form: the accumulated
output itself plays the role of the seen set. -/
def commitStep (acc : List String) (c : String) : List String :=
  match firstUnseenMatch acc c commitPatterns with
  | some d => acc ++ [d]
  | none => acc

/-- The description-collection loop re-expressed as a fold in which a
commit's description is skipped exactly when it is already in the output
collected so far. -/
def commitMessagesFold (commits : List String) : List String :=
  commits.foldl commitStep []

theorem firstUnseenMatch_congr (s1 s2 : List String) (c : String)
    (h : ∀ x, inList x s1 = inList x s2) :
    ∀ ps, firstUnseenMatch s1 c ps = firstUnseenMatch s2 c ps := by
  intro ps
  induction ps with
  | nil => rfl
  | cons p ps ih =>
    simp only [firstUnseenMatch, h p.2, ih]

theorem analyzeCommitMessagesAux_fold (cs : List String) :
    ∀ seen acc, (∀ x, inList x seen = inList x acc) →
    acc ++ analyzeCommitMessagesAux seen cs = List.foldl commitStep acc cs := by
  induction cs with
  | nil =>
    intro seen acc _
    simp [analyzeCommitMessagesAux]
  | cons c cs ih =>
    intro seen acc h
    have hfum : firstUnseenMatch seen c commitPatterns =
        firstUnseenMatch acc c commitPatterns :=
      firstUnseenMatch_congr seen acc c h _
    cases hm : firstUnseenMatch acc c commitPatterns with
    | none =>
      rw [List.foldl_cons]
      have hstep : commitStep acc c = acc := by rw [commitStep, hm]
      rw [hstep, analyzeCommitMessagesAux, hfum, hm]
      exact ih seen acc h
    | some d =>
      rw [List.foldl_cons]
      have hstep : commitStep acc c = acc ++ [d] := by rw [commitStep, hm]
      rw [hstep, analyzeCommitMessagesAux, hfum, hm]
      have h' : ∀ x, inList x (d :: seen) = inList x (acc ++ [d]) := by
        intro x
        rw [inList_append_singleton, ← h x, inList, Bool.or_comm]
      calc acc ++ d :: analyzeCommitMessagesAux (d :: seen) cs
          = (acc ++ [d]) ++ analyzeCommitMessagesAux (d :: seen) cs := by
            simp [List.append_assoc]
        _ = List.foldl commitStep (acc ++ [d]) cs := ih (d :: seen) (acc ++ [d]) h'

theorem analyzeCommitMessages_eq_fold (commits : List String) :
    analyzeCommitMessages commits = commitMessagesFold commits := by
  have h := analyzeCommitMessagesAux_fold commits [] [] (fun _ => rfl)
  simpa [analyzeCommitMessages, commitMessagesFold] using h

theorem firstUnseenMatch_not_seen (seen : List String) (c : String) :
    ∀ ps d, firstUnseenMatch seen c ps = some d → inList d seen = false := by
  intro ps
  induction ps with
  | nil =>
    intro d h
    exact absurd h (by simp [firstUnseenMatch])
  | cons p ps ih =>
    intro d h
    rw [firstUnseenMatch] at h
    split at h
    · rename_i hcond
      cases h
      have h2 := (Bool.and_eq_true _ _).mp hcond
      simpa using h2.2
    · exact ih d h

theorem analyzeCommitMessagesAux_nodup (cs : List String) :
    ∀ seen, (analyzeCommitMessagesAux seen cs).Nodup ∧
      ∀ x ∈ analyzeCommitMessagesAux seen cs, inList x seen = false := by
  induction cs with
  | nil =>
    intro seen
    simp [analyzeCommitMessagesAux]
  | cons c cs ih =>
    intro seen
    cases hm : firstUnseenMatch seen c commitPatterns with
    | none =>
      rw [analyzeCommitMessagesAux, hm]
      exact ih seen
    | some d =>
      rw [analyzeCommitMessagesAux, hm]
      obtain ⟨hnd, hall⟩ := ih (d :: seen)
      have hdn : inList d seen = false := firstUnseenMatch_not_seen seen c _ d hm
      have hdnotmem : d ∉ analyzeCommitMessagesAux (d :: seen) cs := by
        intro hmem
        have h := hall d hmem
        simp [inList] at h
      refine ⟨List.nodup_cons.mpr ⟨hdnotmem, hnd⟩, ?_⟩
      intro x hx
      rcases List.mem_cons.mp hx with rfl | hx'
      · exact hdn
      · have h := hall x hx'
        simp only [inList, Bool.or_eq_false_iff] at h
        exact h.2

/-! ### The claims' own readings of the two contested behaviours -/

/-- Scan for the first colon, remembering the previous character. -/
def firstColonAfterBang : Option Char → List Char → Bool
  | _, [] => false
  | prev, c :: cs => if c == ':' then prev == some '!' else firstColonAfterBang (some c) cs

/-- Modelled from the claim's words (claim C2): the subject's
conventional-commit header is suffixed with `!` immediately before the
colon, as in `feat!:` or `fix!:` — i.e. the first colon of the subject is
immediately preceded by `!`. -/
def headerBang (s : String) : Bool :=
  firstColonAfterBang none s.data

/-- Modelled from the claim's words (claim C2): the breaking-subject
predicate exactly as the claim states it — explicit `BREAKING CHANGE`
token (case-insensitive), or a `!`-suffixed header, or the word
`breaking` anywhere (case-insensitive). -/
def breakingSpecMatch (s : String) : Bool :=
  containsCI s "BREAKING CHANGE" || headerBang s || containsCI s "breaking"

/-- The first table entry whose pattern matches, ignoring the seen set. -/
def firstMatchDesc (c : String) : List ((String → Bool) × String) → Option String
  | [] => none
  | p :: ps => if p.1 c then some p.2 else firstMatchDesc c ps

/-- Modelled from the claim's words (claim C3): every commit contributes at
most the description of its first matching table entry, and the resulting
sequence is deduplicated first-occurrence-wins. -/
def analyzeCommitMessagesClaimed (commits : List String) : List String :=
  dedupFirst (commits.filterMap (fun c => firstMatchDesc c commitPatterns))

/-- Claim C2 (counterexample): the subject `Fix parser: handle a!:b tokens`
triggers the code's breaking-change detection (the unanchored `/!:/` pattern
matches in the middle of the subject) although it contains neither
`BREAKING CHANGE` nor `breaking` and its header is not `!`-suffixed, so the
claimed three conditions do not cover the code's behaviour. -/
theorem breakingMatch_claim_counterexample :
    breakingMatch "Fix parser: handle a!:b tokens" = true ∧
    breakingSpecMatch "Fix parser: handle a!:b tokens" = false := by
  exact ⟨by decide, by decide⟩

/-- Claim C2 (amended): a subject triggers breaking-change detection iff it
contains `BREAKING CHANGE` (case-insensitive), or begins with `feat!:` or
`fix!:` (case-insensitive), or contains the substring `!:` anywhere, or
contains `breaking` anywhere (case-insensitive). -/
theorem breakingMatch_characterization (s : String) :
    breakingMatch s =
      (containsCI s "BREAKING CHANGE" || startsWithCI s "feat!:" || startsWithCI s "fix!:" ||
       containsL "!:".data s.data || containsCI s "breaking") := by
  have e1 : startsWithCI s "feat!:" = startsWithL "feat!:".data (lowerL s) := by
    have e : lowerL "feat!:" = "feat!:".data := by decide
    rw [startsWithCI, e]
  have e2 : startsWithCI s "fix!:" = startsWithL "fix!:".data (lowerL s) := by
    have e : lowerL "fix!:" = "fix!:".data := by decide
    rw [startsWithCI, e]
  have e3 : containsCI s "breaking" = containsL "breaking".data (lowerL s) := by
    have e : lowerL "breaking" = "breaking".data := by decide
    rw [containsCI, e]
  rw [breakingMatch, e1, e2, e3]
  cases hbc : bcAnywhere (lowerL s) with
  | true =>
    have hD : containsL "breaking".data (lowerL s) = true := bcAnywhere_breaking _ hbc
    simp [hD]
  | false =>
    cases hBC : containsCI s "BREAKING CHANGE" with
    | true =>
      have hD : containsL "breaking".data (lowerL s) = true := breaking_of_containsBC s hBC
      simp [hD]
    | false => simp

/-- Claim C3 (counterexample): with commits `fix: crash` then
`fix: update parser`, the second commit's first matching table entry is the
`fix` entry, whose description is already taken, so under the claim it would
contribute nothing; the code instead continues the scan and contributes the
`chore` entry's description. -/
theorem commitMessages_claim_counterexample :
    analyzeCommitMessages ["fix: crash", "fix: update parser"] =
      ["Fix bugs and resolve issues", "General maintenance and updates"] ∧
    analyzeCommitMessagesClaimed ["fix: crash", "fix: update parser"] =
      ["Fix bugs and resolve issues"] ∧
    (analyzeCommitMessages ["fix: crash", "fix: update parser"] ==
      analyzeCommitMessagesClaimed ["fix: crash", "fix: update parser"]) = false := by
  exact ⟨by decide, by decide, by decide⟩

/-- Claim C3 (amended): for each commit subject the scan stops at the first
table entry whose pattern matches AND whose description has not yet been
added; equivalently the loop is a fold in which the output collected so far
is the seen set; and each description is added at most once overall. -/
theorem analyzeCommitMessages_spec (commits : List String) :
    analyzeCommitMessages commits = commitMessagesFold commits ∧
    (analyzeCommitMessages commits).Nodup :=
  ⟨analyzeCommitMessages_eq_fold commits,
   (analyzeCommitMessagesAux_nodup commits []).1⟩

/-- The label the source pairs with each bump category. -/
def labelOf : VersionBumpType → String
  | VersionBumpType.major => "Major Changes"
  | VersionBumpType.minor => "Minor Changes"
  | VersionBumpType.patch => "Patch Changes"

/-- Claim C1: `versionBump` is `major` iff some commit subject matches a
breaking indicator; otherwise `minor` iff some subject matches a feature
indicator; otherwise `patch`; `changeType` is the corresponding label; and
any subject beginning with `feat(`, `feat:` or `feature:` (case-insensitive)
matches the feature indicators. -/
theorem analyze_bump_iff (files commits : List String) :
    ((analyzeChangesForVersionBump files commits).versionBump = VersionBumpType.major ↔
      commits.any breakingMatch = true) ∧
    (commits.any breakingMatch = false →
      ((analyzeChangesForVersionBump files commits).versionBump = VersionBumpType.minor ↔
        commits.any featureMatch = true)) ∧
    (commits.any breakingMatch = false → commits.any featureMatch = false →
      (analyzeChangesForVersionBump files commits).versionBump = VersionBumpType.patch) ∧
    (analyzeChangesForVersionBump files commits).changeType =
      labelOf ((analyzeChangesForVersionBump files commits).versionBump) ∧
    (∀ s : String,
      (startsWithCI s "feat(" || startsWithCI s "feat:" || startsWithCI s "feature:") = true →
      featureMatch s = true) := by
  refine ⟨?_, ?_, ?_, ?_, ?_⟩
  · cases hb : commits.any breakingMatch <;>
      cases hf : commits.any featureMatch <;>
        simp [analyzeChangesForVersionBump, hb, hf]
  · intro hb
    cases hf : commits.any featureMatch <;>
      simp [analyzeChangesForVersionBump, hb, hf]
  · intro hb hf
    simp [analyzeChangesForVersionBump, hb, hf]
  · cases hb : commits.any breakingMatch <;>
      cases hf : commits.any featureMatch <;>
        simp [analyzeChangesForVersionBump, hb, hf, labelOf]
  · intro s hs
    have e1 : lowerL "feat(" = "feat(".data := by decide
    have e2 : lowerL "feat:" = "feat:".data := by decide
    have e3 : lowerL "feature:" = "feature:".data := by decide
    simp only [startsWithCI, e1, e2, e3, Bool.or_eq_true] at hs
    rcases hs with (h | h) | h <;> simp [featureMatch, h]

/-- Witness for C1 at a concrete snapshot. -/
theorem analyze_bump_iff_witness :
    (analyzeChangesForVersionBump [] ["feature: dark mode"]).versionBump =
      VersionBumpType.minor ∧
    featureMatch "feature: dark mode" = true := by
  have h := analyze_bump_iff [] ["feature: dark mode"]
  exact ⟨(h.2.1 (by decide)).mpr (by decide),
         h.2.2.2.2 "feature: dark mode" (by decide)⟩

/-- Claim C4: any commit subject containing the literal substring
`BREAKING CHANGE` (any case) forces `versionBump = major`, whatever the
other subjects are. -/
theorem breaking_change_forces_major (files commits : List String) (c : String)
    (hc : c ∈ commits) (hbc : containsCI c "BREAKING CHANGE" = true) :
    (analyzeChangesForVersionBump files commits).versionBump = VersionBumpType.major := by
  have hany : commits.any breakingMatch = true :=
    List.any_eq_true.mpr ⟨c, hc, breakingMatch_of_containsBC c hbc⟩
  simp [analyzeChangesForVersionBump, hany]

/-- Witness for C4: a snapshot with a feature commit and a commit carrying
the token in mixed case. -/
theorem breaking_change_forces_major_witness :
    (analyzeChangesForVersionBump ["src/a.ts"]
      ["feat: new dashboards", "note the Breaking Change in the API"]).versionBump =
      VersionBumpType.major :=
  breaking_change_forces_major ["src/a.ts"]
    ["feat: new dashboards", "note the Breaking Change in the API"]
    "note the Breaking Change in the API" (by decide) (by decide)

/-- The fallback-or-base list is never empty. -/
theorem fallback_ne_nil (l : List String) :
    (if l.isEmpty then ["General improvements and bug fixes"] else l) ≠ [] := by
  cases l <;> simp

theorem rawChangesList_ne_nil (files commits : List String) :
    rawChangesList files commits ≠ [] :=
  fallback_ne_nil _

theorem dedupFirst_length_pos (l : List String) (h : l ≠ []) :
    0 < (dedupFirst l).length := by
  cases l with
  | nil => exact absurd rfl h
  | cons x xs => simp [dedupFirst, dedupAux, inList]

/-- Claim C6: the empty snapshot classifies to patch / `Patch Changes` /
the single fallback description, and (totality being built into the shallow
embedding) every snapshot yields a non-empty description list. -/
theorem classify_empty_snapshot :
    analyzeChangesForVersionBump [] [] =
      { versionBump := VersionBumpType.patch
        changeType := "Patch Changes"
        changesList := ["General improvements and bug fixes"]
        changedFiles := []
        commits := [] } ∧
    ∀ files commits : List String,
      0 < ((analyzeChangesForVersionBump files commits).changesList).length := by
  refine ⟨by decide, ?_⟩
  intro files commits
  exact dedupFirst_length_pos _ (rawChangesList_ne_nil files commits)

/-- Claim C7: the snapshot with the single commit `feat!: remove legacy API`
and no files is major, labelled `Major Changes`, carries exactly the fixed
breaking-change description, and does not carry the feature description. -/
theorem classify_breaking_header_scenario :
    analyzeChangesForVersionBump [] ["feat!: remove legacy API"] =
      { versionBump := VersionBumpType.major
        changeType := "Major Changes"
        changesList := ["**BREAKING CHANGES**: Major updates that may require code changes"]
        changedFiles := []
        commits := ["feat!: remove legacy API"] } ∧
    inList "**BREAKING CHANGES**: Major updates that may require code changes"
      ((analyzeChangesForVersionBump [] ["feat!: remove legacy API"]).changesList) = true ∧
    inList "Add new features and functionality"
      ((analyzeChangesForVersionBump [] ["feat!: remove legacy API"]).changesList) = false := by
  exact ⟨by decide, by decide, by decide⟩

/-- Claim C8: the snapshot with commits `fix: null pointer`, `chore: bump
deps` and file `src/foo.ts` is patch, and its description list is exactly
the file-table entry followed by the two commit-table entries. -/
theorem classify_scenario_a :
    analyzeChangesForVersionBump ["src/foo.ts"] ["fix: null pointer", "chore: bump deps"] =
      { versionBump := VersionBumpType.patch
        changeType := "Patch Changes"
        changesList := ["Update source code and functionality",
                        "Fix bugs and resolve issues",
                        "General maintenance and updates"]
        changedFiles := ["src/foo.ts"]
        commits := ["fix: null pointer", "chore: bump deps"] } := by
  decide

/-- Claim C9: the returned description list has no duplicates, deduplicating
it again is the identity, and it is the raw (pre-dedup) sequence with later
duplicates removed: a subsequence with exactly the same members. -/
theorem changesList_dedup_spec (files commits : List String) :
    (analyzeChangesForVersionBump files commits).changesList.Nodup ∧
    dedupFirst ((analyzeChangesForVersionBump files commits).changesList) =
      (analyzeChangesForVersionBump files commits).changesList ∧
    ((analyzeChangesForVersionBump files commits).changesList).Sublist
      (rawChangesList files commits) ∧
    (∀ x, x ∈ (analyzeChangesForVersionBump files commits).changesList ↔
      x ∈ rawChangesList files commits) :=
  ⟨dedupFirst_nodup _, dedupFirst_idem _, dedupFirst_sublist _,
   fun x => mem_dedupFirst x _⟩

/-- Rendering a parsed component is rendering the natural number. -/
theorem jsNumToString_ofNat (n : Nat) :
    jsNumToString (some (Int.ofNat n)) = toString n := rfl

/-- Below 2^53 (and at it) float64 represents a natural exactly. -/
theorem flNat_of_le (n : Nat) (h : n ≤ 9007199254740992) : flNat n = n := by
  rcases Nat.lt_or_ge n 9007199254740992 with h' | h'
  · simp [flNat, h']
  · have he : n = 9007199254740992 := Nat.le_antisymm h h'
    subst he
    decide

/-- The float64 increment is exact on components below 2^53. -/
theorem jsAdd1_small (a : Nat) (h : a < 9007199254740992) :
    jsAdd1 (some (Int.ofNat a)) = some (Int.ofNat (a + 1)) := by
  show some (flInt (Int.ofNat a + 1)) = some (Int.ofNat (a + 1))
  have e : Int.ofNat a + 1 = Int.ofNat (a + 1) := (Int.ofNat_succ a).symm
  have hpos : ¬Int.ofNat (a + 1) < 0 := by
    rw [Int.not_lt]
    exact Int.ofNat_zero_le (a + 1)
  rw [e, flInt, if_neg hpos]
  show some (Int.ofNat (flNat (a + 1))) = some (Int.ofNat (a + 1))
  rw [flNat_of_le (a + 1) (by omega)]

/-- Rendering a component after the increment, below 2^53. -/
theorem jsNumToString_add1 (n : Nat) (h : n < 9007199254740992) :
    jsNumToString (jsAdd1 (some (Int.ofNat n))) = toString (n + 1) := by
  rw [jsAdd1_small n h]
  rfl

/-- Claim C5 (counterexample): at PATCH = 2^53 the claimed identity
`a.b.(PATCH+1)` fails — `Number` parses the component exactly, but the
float64 `+ 1` is absorbed (tie to even), so the program echoes
`1.2.9007199254740992` instead of the claimed `1.2.9007199254740993`. -/
theorem incrementVersion_claim_counterexample :
    incrementVersion "1.2.9007199254740992" VersionBumpType.patch =
      "1.2.9007199254740992" ∧
    (incrementVersion "1.2.9007199254740992" VersionBumpType.patch ==
      "1.2." ++ toString (9007199254740992 + 1)) = false := by
  exact ⟨by decide, by decide⟩

/-- Claim C5 (amended): on a version string whose three dot-separated
components parse as naturals `a`, `b`, `c` below 2^53 — the range in which
float64 integer arithmetic is exact — the bump arms produce `(a+1).0.0`,
`a.(b+1).0` and `a.b.(c+1)` respectively. -/
theorem incrementVersion_spec (v : String) (a b c : Nat)
    (h : (splitDot v.data).map jsNumberL =
      [some (Int.ofNat a), some (Int.ofNat b), some (Int.ofNat c)])
    (ha : a < 9007199254740992) (hb : b < 9007199254740992)
    (hc : c < 9007199254740992) :
    incrementVersion v VersionBumpType.major = toString (a + 1) ++ ".0.0" ∧
    incrementVersion v VersionBumpType.minor =
      toString a ++ "." ++ toString (b + 1) ++ ".0" ∧
    incrementVersion v VersionBumpType.patch =
      toString a ++ "." ++ toString b ++ "." ++ toString (c + 1) := by
  have ea := jsNumToString_add1 a ha
  have eb := jsNumToString_add1 b hb
  have ec := jsNumToString_add1 c hc
  refine ⟨?_, ?_, ?_⟩ <;>
    simp only [incrementVersion, h, List.getD_cons_zero, List.getD_cons_succ,
      jsNumToString_ofNat, ea, eb, ec]

/-- Witness for C5: the four concrete increments named by the claim. -/
theorem incrementVersion_spec_witness :
    incrementVersion "1.2.3" VersionBumpType.major = "2.0.0" ∧
    incrementVersion "1.2.3" VersionBumpType.minor = "1.3.0" ∧
    incrementVersion "1.2.3" VersionBumpType.patch = "1.2.4" ∧
    incrementVersion "0.0.1" VersionBumpType.patch = "0.0.2" := by
  have h1 := incrementVersion_spec "1.2.3" 1 2 3 (by decide)
    (by decide) (by decide) (by decide)
  have h2 := incrementVersion_spec "0.0.1" 0 0 1 (by decide)
    (by decide) (by decide) (by decide)
  exact ⟨h1.1.trans (by decide), h1.2.1.trans (by decide),
         h1.2.2.trans (by decide), h2.2.2.trans (by decide)⟩

